import Mathlib

/-!
Verification of the fuzzy name-matching and reconciliation engine of the
Peterhoff uploader (src/Uploader).  Strings are modelled as `List Char`
(Python `str`, one element per code point).  The definitions below are
shallow embeddings of:
  * `normalize_text` / `normalize_filename`  (main.py:17-35, categorizer.py:9-47),
  * `os.path.splitext`                        (genericpath._splitext, as called by them),
  * `find_matching_name`                      (categorizer.py:50-70; the same
    algorithm as `LiferayFileUploader.find_description_for_file`, main.py:142-156),
  * `FileUploader.upload_or_replace_file`, `_upload_file_internal`,
    `upload_files_batch`, `_check_file_extension` (file_uploader.py).
The remote Liferay service is abstracted per file into a `FileEnv` record that
fixes the responses the server gives during one reconciliation pass.
-/

/-- The character class kept by `re.sub(r'[^a-zа-яё0-9]', '', text)`
(main.py:25, categorizer.py:28): ASCII letters a-z (0x61-0x7a), digits
0-9 (0x30-0x39), Cyrillic а-я (0x430-0x44f) and ё (0x451). -/
def isAllowed (c : Char) : Bool :=
  decide ((0x61 ≤ c.toNat ∧ c.toNat ≤ 0x7a) ∨ (0x30 ≤ c.toNat ∧ c.toNat ≤ 0x39) ∨
    (0x430 ≤ c.toNat ∧ c.toNat ≤ 0x44f) ∨ c.toNat = 0x451)

/-- Python `str.lower()`, modelled on the character ranges that matter to the
normalizer: ASCII A-Z (0x41-0x5a) and Cyrillic А-Я (0x410-0x42f) map down by
0x20, Ё (0x401) maps to ё (0x451); every other character is left unchanged.
(Full Unicode lowercasing of other characters never produces a character of
the kept class above, so it is irrelevant after the filter.) -/
def lowerChar (c : Char) : Char :=
  if 0x41 ≤ c.toNat ∧ c.toNat ≤ 0x5a then Char.ofNat (c.toNat + 0x20)
  else if 0x410 ≤ c.toNat ∧ c.toNat ≤ 0x42f then Char.ofNat (c.toNat + 0x20)
  else if c.toNat = 0x401 then Char.ofNat 0x451
  else c

/-- `normalize_text` on an input that is already a string (main.py:17-27):
lowercase, then delete every character outside the kept class. -/
def normalize_text (s : List Char) : List Char :=
  (s.map lowerChar).filter isAllowed

/-- A Python value reaching `normalize_text`: either already a string or a
numeric value that `str(text)` coerces (main.py:21-22). -/
inductive PyVal where
  | str : List Char → PyVal
  | int : Int → PyVal

/-- The `str(text)` coercion applied when the input is not a string. -/
def pyStr : PyVal → List Char
  | PyVal.str s => s
  | PyVal.int n => (toString n).toList

/-- `normalize_text` on an arbitrary input value: coerce to text, then
normalize (main.py:21-27). -/
def normalize_py (v : PyVal) : List Char :=
  normalize_text (pyStr v)

/-- Index of the last occurrence of `c` in `l` (Python `str.rfind`),
`none` when absent. -/
def rfindPos : List Char → Char → Option Nat
  | [], _ => none
  | a :: l, c =>
    match rfindPos l c with
    | some i => some (i + 1)
    | none => if a = c then some 0 else none

/-- Maximum of two optional indices, `none` acting as Python's `-1`. -/
def optMax : Option Nat → Option Nat → Option Nat
  | none, b => b
  | a, none => a
  | some x, some y => some (max x y)

/-- First index after the last path separator (`/` or `\`), i.e. Python's
`sepIndex + 1` in `genericpath._splitext`; `0` when no separator occurs. -/
def basenameStart (p : List Char) : Nat :=
  match optMax (rfindPos p '/') (rfindPos p '\\') with
  | none => 0
  | some i => i + 1

/-- `os.path.splitext` (genericpath._splitext with both separators): the split
happens at the last `.` only when that dot lies after the last separator and
some non-dot character stands between the separator (or the string start) and
the dot; otherwise the whole string is the root and the extension is empty. -/
def splitext (p : List Char) : List Char × List Char :=
  match rfindPos p '.' with
  | none => (p, [])
  | some d =>
    if decide (basenameStart p ≤ d) &&
        ((List.range' (basenameStart p) (d - basenameStart p)).any fun i =>
          p.getD i '.' != '.') then
      (p.take d, p.drop d)
    else (p, [])

/-- `normalize_filename` (main.py:30-35, categorizer.py:33-47): drop the
extension with `os.path.splitext`, then normalize. -/
def normalize_filename (p : List Char) : List Char :=
  normalize_text (splitext p).1

/-- Definition following the words of the specification for claim C7: the
filename with "the trailing segment after the last '.'" stripped (the dot
included), the whole name when it has no dot.  Stated for comparison with
`normalize_filename`, which uses `os.path.splitext` instead. -/
def claimC7_stem (p : List Char) : List Char :=
  match rfindPos p '.' with
  | none => p
  | some d => p.take d

/-- Whether `needle` is a leading block of `hay` (helper for the Python
substring test). -/
def startsWithB : List Char → List Char → Bool
  | [], _ => true
  | _ :: _, [] => false
  | a :: as, b :: bs => (a == b) && startsWithB as bs

/-- Python's `needle in hay` on strings: `needle` occurs contiguously in
`hay` (the empty string occurs in everything). -/
def containsSub : List Char → List Char → Bool
  | needle, [] => needle.isEmpty
  | needle, b :: bs => startsWithB needle (b :: bs) || containsSub needle bs

/-- `find_matching_name` (categorizer.py:50-70) and the identical matching in
`find_description_for_file` (main.py:142-156): exact dictionary lookup first,
then a scan in iteration order returning the first entry whose key contains
the file key or is contained in it.  The reference index is the insertion-
ordered list of (normalizedKey, value) pairs of the Python dict. -/
def find_matching_name {α : Type} (fileKey : List Char) (idx : List (List Char × α)) : Option α :=
  ((idx.find? fun q => q.1 == fileKey).orElse
    fun _ => idx.find? fun q => containsSub fileKey q.1 || containsSub q.1 fileKey).map Prod.snd

/-- Snapshot of a remote document entry as returned by the Liferay JSON-WS
calls; `description = []` models a missing or empty description field. -/
structure RemoteDoc where
  fileEntryId : Nat
  title : List Char
  description : List Char
deriving DecidableEq

/-- The per-file environment of one reconciliation pass: the local file's
path and presence, and the (deterministic) responses of the remote service
to the calls made while processing this file. -/
structure FileEnv where
  path : List Char
  localExists : Bool
  existing : Option RemoteDoc
  deleteOk : Bool
  uploadResult : Option RemoteDoc
  updateOk : Bool
  desc : List Char
deriving DecidableEq

/-- `FileUploader._upload_file_internal` (file_uploader.py:180-229): returns
the server's response to `dlapp/add-file-entry` and whether the secondary
`update_file_description` call was issued (it is issued when a non-empty
description was requested but the returned document carries none; its own
success or failure is ignored). -/
def upload_file_internal (env : FileEnv) (desc : List Char) : Option RemoteDoc × Bool :=
  match env.uploadResult with
  | none => (none, false)
  | some doc => (some doc, !desc.isEmpty && doc.description.isEmpty)

/-- Outcome of `upload_or_replace_file`: the returned document (or `none`),
whether the in-upload description patch was issued, whether the
failure-fallback description update was issued, and whether a delete of the
existing document was attempted. -/
structure ReconcileResult where
  outcome : Option RemoteDoc
  descPatchCalled : Bool
  fallbackUpdateCalled : Bool
  deleteCalled : Bool
deriving DecidableEq

/-- `FileUploader.upload_or_replace_file` (file_uploader.py:128-178): check
the local file, check remote existence, delete the existing document when
replacing (best effort), upload, and - when the upload failed, an existing
document was found, replacement was off and the description is non-empty -
fall back to updating the existing document's description and returning it. -/
def upload_or_replace_file (env : FileEnv) (desc : List Char) (replace : Bool) : ReconcileResult :=
  if !env.localExists then ⟨none, false, false, false⟩
  else
    let delCalled := env.existing.isSome && replace
    let r := upload_file_internal env desc
    if r.1.isNone && env.existing.isSome && !replace && !desc.isEmpty then
      ⟨env.existing, r.2, true, delCalled⟩
    else
      ⟨r.1, r.2, false, delCalled⟩

/-- Entry appended to the batch's `successful` (and possibly `replaced`)
lists (file_uploader.py:302-315). -/
structure ResultInfo where
  file_path : List Char
  file_entry_id : Nat
  was_replaced : Bool
deriving DecidableEq

/-- The `results` dictionary of `upload_files_batch` (file_uploader.py:252-257). -/
structure BatchResults where
  successful : List ResultInfo
  failed : List (List Char)
  skipped : List (List Char)
  replaced : List ResultInfo
deriving DecidableEq

/-- One iteration of the `upload_files_batch` loop (file_uploader.py:259-321):
skip a missing local file; otherwise reconcile and record the outcome in
exactly one of `successful` / `failed`, also appending to `replaced` when an
existing remote document was found and replacement was on. -/
def processOne (replace : Bool) (acc : BatchResults) (env : FileEnv) : BatchResults :=
  if !env.localExists then
    ⟨acc.successful, acc.failed, acc.skipped ++ [env.path], acc.replaced⟩
  else
    match (upload_or_replace_file env env.desc replace).outcome with
    | some doc =>
      ⟨acc.successful ++ [⟨env.path, doc.fileEntryId, env.existing.isSome && replace⟩],
        acc.failed, acc.skipped,
        if env.existing.isSome && replace then
          acc.replaced ++ [⟨env.path, doc.fileEntryId, env.existing.isSome && replace⟩]
        else acc.replaced⟩
    | none => ⟨acc.successful, acc.failed ++ [env.path], acc.skipped, acc.replaced⟩

/-- `FileUploader.upload_files_batch` (file_uploader.py:231-329), with each
file's resolved description and server responses carried by its `FileEnv`. -/
def upload_files_batch (replace : Bool) (files : List FileEnv) : BatchResults :=
  files.foldl (processOne replace) ⟨[], [], [], []⟩

/-- Pointwise `str.lower()` on a string, as applied to the extension in
`_check_file_extension`. -/
def lowerList (l : List Char) : List Char :=
  l.map lowerChar

/-- `FileUploader._check_file_extension` (file_uploader.py:455-463): an empty
(or absent) allow-list accepts everything; otherwise the lowercased extension
(leading dot included) must literally be a member of the list, or be a member
after prefixing one more dot (the code's `f".{file_ext}"`). -/
def check_file_extension (filename : List Char) (extensions : List (List Char)) : Bool :=
  if extensions.isEmpty then true
  else
    let fileExt := lowerList (splitext filename).2
    extensions.contains fileExt || extensions.contains ('.' :: fileExt)

/-- Definition following the words of the specification for claim C9: accept
when the allow-list is empty, or when the file's extension matches some entry
by case-insensitive comparison.  Stated for comparison with
`check_file_extension`, which lowercases only the filename's side. -/
def claimC9_accept (filename : List Char) (extensions : List (List Char)) : Bool :=
  extensions.isEmpty ||
    extensions.any fun e => lowerList (splitext filename).2 == lowerList e

/-- Concrete remote document for the claim C3 counterexample and witness. -/
def docC3 : RemoteDoc := ⟨7, [], []⟩

/-- Environment for claim C3: the local file exists, a remote document was
found, and the upload call fails. -/
def envC3 : FileEnv := ⟨[], true, some docC3, true, none, true, []⟩

/-- Concrete remote document for the claim C8 witness: upload succeeds but the
returned entry carries no description. -/
def docC8 : RemoteDoc := ⟨42, [], []⟩

/-- Environment for claim C8: upload succeeds with `docC8`, and the secondary
description-update call fails (`updateOk = false`). -/
def envC8 : FileEnv := ⟨[], true, none, true, some docC8, false, []⟩

/-! ## Helper lemmas -/

/-- A character of the kept class is left unchanged by `lowerChar` (the class
is disjoint from the uppercase ranges the function maps down). -/
theorem lowerChar_of_isAllowed {c : Char} (h : isAllowed c = true) : lowerChar c = c := by
  unfold isAllowed at h
  rw [decide_eq_true_eq] at h
  unfold lowerChar
  rcases h with h | h | h | h <;>
    (split_ifs with h1 h2 h3 <;> first | rfl | omega)

/-- Every character of a normalized string belongs to the kept class. -/
theorem isAllowed_of_mem_normalize {c : Char} {s : List Char}
    (h : c ∈ normalize_text s) : isAllowed c = true := by
  unfold normalize_text at h
  exact (List.mem_filter.mp h).2

/-- Mapping a function that fixes every element of a list is the identity. -/
theorem map_self_of_fixed {α : Type} {f : α → α} :
    ∀ l : List α, (∀ a ∈ l, f a = a) → l.map f = l := by
  intro l
  induction l with
  | nil => intro _; rfl
  | cons a t ih =>
    intro h
    have ha := h a (List.mem_cons_self a t)
    have ht := ih fun b hb => h b (List.mem_cons_of_mem a hb)
    simp [ha, ht]

/-- Filtering by a predicate every element already satisfies is the identity. -/
theorem filter_self_of_all {α : Type} {p : α → Bool} :
    ∀ l : List α, (∀ a ∈ l, p a = true) → l.filter p = l := by
  intro l
  induction l with
  | nil => intro _; rfl
  | cons a t ih =>
    intro h
    have ha := h a (List.mem_cons_self a t)
    have ht := ih fun b hb => h b (List.mem_cons_of_mem a hb)
    simp [List.filter_cons, ha, ht]

/-! ## Claim C2 and C6: the Normalizer -/

/-- Claim C2: for every input value (string or numeric, empty included),
`normalize_text` totally returns a string whose characters all lie in the
kept class (ASCII a-z, Cyrillic а-я plus ё, digits) and are already
lowercase (fixed by lowering); the empty input yields the empty string. -/
theorem normalize_py_total_allowed (v : PyVal) :
    (((normalize_py v).all fun c => isAllowed c && (lowerChar c == c)) = true) ∧
    normalize_py (PyVal.str []) = [] := by
  constructor
  · rw [List.all_eq_true]
    intro c hc
    have ha : isAllowed c = true := isAllowed_of_mem_normalize hc
    rw [ha, lowerChar_of_isAllowed ha]
    simp
  · rfl

/-- Claim C6: `normalize_text` is idempotent - normalizing an already
normalized string changes nothing, because every kept character is lowercase
and in the kept class. -/
theorem normalize_text_idempotent (s : List Char) :
    normalize_text (normalize_text s) = normalize_text s := by
  show ((normalize_text s).map lowerChar).filter isAllowed = normalize_text s
  rw [map_self_of_fixed (normalize_text s)
    (fun a ha => lowerChar_of_isAllowed (isAllowed_of_mem_normalize ha))]
  exact filter_self_of_all (normalize_text s) fun a ha => isAllowed_of_mem_normalize ha

/-! ## Claim C7: normalize_filename versus "strip after the last dot" -/

/-- Claim C7 counterexample: on the dotfile name ".bashrc",
`normalize_filename` (via `os.path.splitext`) keeps the whole name and yields
"bashrc", while stripping "the trailing segment after the last '.'" as the
claim words it would leave nothing, so the two disagree. -/
theorem normalize_filename_counterexample :
    normalize_filename ((".bashrc").toList) = (("bashrc").toList) ∧
    normalize_text (claimC7_stem ((".bashrc").toList)) = [] ∧
    normalize_filename ((".bashrc").toList) ≠
      normalize_text (claimC7_stem ((".bashrc").toList)) := by
  decide

/-- Claim C7 (amended): `normalize_filename` equals the normalizer applied to
the part before the last '.' whenever `os.path.splitext` actually recognises
an extension: the last dot lies after the last path separator and at least one
non-dot character stands between the separator (or string start) and that dot.
(For names whose base name consists only of dots up to the last dot, such as
".bashrc", the whole name is kept instead.) -/
theorem normalize_filename_spec (p : List Char) (d : Nat)
    (hd : rfindPos p '.' = some d)
    (h1 : basenameStart p ≤ d)
    (h2 : ((List.range' (basenameStart p) (d - basenameStart p)).any fun i =>
      p.getD i '.' != '.') = true) :
    normalize_filename p = normalize_text (claimC7_stem p) := by
  have hc : (decide (basenameStart p ≤ d) &&
      ((List.range' (basenameStart p) (d - basenameStart p)).any fun i =>
        p.getD i '.' != '.')) = true := by
    rw [decide_eq_true h1, h2]
    rfl
  have hsplit : (splitext p).1 = p.take d := by
    unfold splitext
    rw [hd]
    simp only [hc, if_true]
  have hstem : claimC7_stem p = p.take d := by
    unfold claimC7_stem
    rw [hd]
  unfold normalize_filename
  rw [hsplit, hstem]

/-- Claim C7 witness: on "a.txt" the hypotheses of the amended theorem hold
(last dot at index 1, a non-dot character before it) and the conclusion is the
concrete equality of the two normalized stems. -/
theorem normalize_filename_spec_witness :
    (rfindPos (("a.txt").toList) '.' = some 1 ∧
      basenameStart (("a.txt").toList) ≤ 1 ∧
      ((List.range' (basenameStart (("a.txt").toList))
          (1 - basenameStart (("a.txt").toList))).any fun i =>
        (("a.txt").toList).getD i '.' != '.') = true) ∧
    normalize_filename (("a.txt").toList) =
      normalize_text (claimC7_stem (("a.txt").toList)) :=
  ⟨⟨by decide, by decide, by decide⟩,
    normalize_filename_spec (("a.txt").toList) 1 (by decide) (by decide) (by decide)⟩

/-! ## Claims C1 and C4: the Matcher -/

/-- The empty string occurs in every string (Python `"" in s` is true). -/
theorem nil_containsSub : ∀ l : List Char, containsSub [] l = true := by
  intro l
  cases l <;> rfl

/-- When the keys of the index are distinct (as they are for a Python dict)
the exact-lookup scan finds precisely the entry holding the looked-up key. -/
theorem find?_exact_of_mem {α : Type} (k : List Char) (v : α) :
    ∀ idx : List (List Char × α), ((idx.map Prod.fst).Nodup) → (k, v) ∈ idx →
      idx.find? (fun q => q.1 == k) = some (k, v) := by
  intro idx
  induction idx with
  | nil => intro _ hv; simp at hv
  | cons a t ih =>
    intro hnd hv
    rw [List.map_cons, List.nodup_cons] at hnd
    by_cases ha : a.1 = k
    · have haeq : a = (k, v) := by
        rcases List.mem_cons.mp hv with h | h
        · exact h.symm
        · exact absurd (ha ▸ List.mem_map_of_mem Prod.fst h) hnd.1
      rw [List.find?_cons_of_pos _ (by simp [ha]), haeq]
    · rw [List.find?_cons_of_neg _ (by simp [ha])]
      apply ih hnd.2
      rcases List.mem_cons.mp hv with h | h
      · exact absurd (congrArg Prod.fst h.symm) ha
      · exact h
  
/-- A scan skips a leading block on which the predicate is false. -/
theorem find?_append_of_none {α : Type} (pr : α → Bool) (l1 l2 : List α)
    (h : ∀ r ∈ l1, pr r = false) : (l1 ++ l2).find? pr = l2.find? pr := by
  induction l1 with
  | nil => rfl
  | cons a t ih =>
    rw [List.cons_append,
      List.find?_cons_of_neg _ (by simp [h a (List.mem_cons_self a t)]),
      ih fun r hr => h r (List.mem_cons_of_mem a hr)]

/-- Claim C1: `find_matching_name` tries the exact key lookup first - when the
file key is a key of the (distinct-keyed) index, that entry's value is
returned, whatever other keys stand in a substring relation - and only when no
exact key exists does it return the value of the first entry in iteration
order whose key contains or is contained in the file key. -/
theorem find_matching_name_spec {α : Type} (idx : List (List Char × α)) (k : List Char)
    (hnd : (idx.map Prod.fst).Nodup) :
    (∀ v : α, (k, v) ∈ idx → find_matching_name k idx = some v) ∧
    ((∀ q ∈ idx, q.1 ≠ k) →
      ∀ (l1 l2 : List (List Char × α)) (q : List Char × α),
        idx = l1 ++ q :: l2 →
        (containsSub k q.1 || containsSub q.1 k) = true →
        (∀ r ∈ l1, (containsSub k r.1 || containsSub r.1 k) = false) →
        find_matching_name k idx = some q.2) := by
  constructor
  · intro v hv
    unfold find_matching_name
    rw [find?_exact_of_mem k v idx hnd hv]
    rfl
  · intro hne l1 l2 q hidx hq hl1
    have hex : idx.find? (fun r => r.1 == k) = none := by
      rw [List.find?_eq_none]
      intro x hx
      simp only [beq_iff_eq]
      exact hne x hx
    have hsub : idx.find? (fun r => containsSub k r.1 || containsSub r.1 k) = some q := by
      rw [hidx, find?_append_of_none _ l1 (q :: l2) hl1]
      exact List.find?_cons_of_pos _ hq
    unfold find_matching_name
    rw [hex, hsub]
    rfl

/-- Claim C1 witness: with the index holding exactly the key "report2024",
looking up "report2024" returns its value through the exact branch. -/
theorem find_matching_name_spec_witness :
    ((([(((("report2024").toList)), (0 : Nat))].map Prod.fst).Nodup) ∧
      ((("report2024").toList, (0 : Nat)) ∈ [((("report2024").toList), (0 : Nat))])) ∧
    find_matching_name (("report2024").toList)
      [((("report2024").toList), (0 : Nat))] = some 0 :=
  ⟨⟨by decide, by decide⟩,
    (find_matching_name_spec [((("report2024").toList), (0 : Nat))]
      (("report2024").toList) (by decide)).1 0 (by decide)⟩

/-- Claim C4 counterexample: the code has no guard for an empty file key - on
the index {"abc" ↦ 9} the empty key matches the first entry through the
substring fallback instead of being rejected with `none`. -/
theorem find_matching_name_empty_counterexample :
    find_matching_name ([] : List Char) [((("abc").toList), (9 : Nat))] = some 9 ∧
    find_matching_name ([] : List Char) [((("abc").toList), (9 : Nat))] ≠ none := by
  decide

/-- Claim C4 (amended): `find_matching_name` does not reject an empty file
key; when the empty string is not itself a key of the index, the substring
fallback fires on the very first entry (the empty string is a substring of
every key), whose value is returned. -/
theorem find_matching_name_empty_fallback {α : Type} (p : List Char × α)
    (rest : List (List Char × α))
    (h : ∀ q ∈ p :: rest, q.1 ≠ ([] : List Char)) :
    find_matching_name [] (p :: rest) = some p.2 := by
  have hex : (p :: rest).find? (fun q => q.1 == ([] : List Char)) = none := by
    rw [List.find?_eq_none]
    intro x hx
    simp only [beq_iff_eq]
    exact h x hx
  have hpos : (containsSub ([] : List Char) p.1 || containsSub p.1 ([] : List Char)) = true := by
    rw [nil_containsSub]
    rfl
  have hsub : (p :: rest).find?
      (fun q => containsSub ([] : List Char) q.1 || containsSub q.1 ([] : List Char)) = some p :=
    List.find?_cons_of_pos _ hpos
  unfold find_matching_name
  rw [hex, hsub]
  rfl

/-- Claim C4 witness: on the index {"abc" ↦ 9}, whose sole key is non-empty,
the empty file key returns the first entry's value 9. -/
theorem find_matching_name_empty_fallback_witness :
    (∀ q ∈ [((("abc").toList), (9 : Nat))], q.1 ≠ ([] : List Char)) ∧
    find_matching_name [] [((("abc").toList), (9 : Nat))] = some 9 :=
  ⟨by decide, find_matching_name_empty_fallback ((("abc").toList), (9 : Nat)) [] (by decide)⟩

/-! ## Claims C3 and C8: the Reconciler -/

/-- Claim C3 counterexample: with the local file present, an existing remote
document found, `replace_existing = False` and a failing upload, an EMPTY
description makes `upload_or_replace_file` return `None` - the fallback that
returns the existing document is skipped (`if description:` guards it), so the
claim as stated fails. -/
theorem upload_or_replace_file_empty_desc_counterexample :
    envC3.localExists = true ∧ envC3.uploadResult = none ∧
    envC3.existing = some docC3 ∧
    (upload_or_replace_file envC3 [] false).outcome = none ∧
    (upload_or_replace_file envC3 [] false).outcome ≠ some docC3 := by
  decide

/-- Claim C3 (amended): when the upload fails, an existing remote document was
found, `replace_existing` is false AND the requested description is non-empty,
the reconciler falls back to updating only the existing document's description
and returns that existing document as the outcome. -/
theorem upload_or_replace_file_fallback (env : FileEnv) (desc : List Char) (doc : RemoteDoc)
    (h1 : env.localExists = true) (h2 : env.uploadResult = none)
    (h3 : env.existing = some doc) (h4 : desc ≠ []) :
    (upload_or_replace_file env desc false).outcome = some doc ∧
    (upload_or_replace_file env desc false).fallbackUpdateCalled = true := by
  cases desc with
  | nil => exact absurd rfl h4
  | cons a t =>
    constructor <;>
      simp [upload_or_replace_file, upload_file_internal, h1, h2, h3]

/-- Claim C3 witness: in the concrete environment `envC3` (upload fails,
`docC3` exists remotely) with the non-empty description "x", the outcome is
the existing document and the fallback description update was issued. -/
theorem upload_or_replace_file_fallback_witness :
    (envC3.localExists = true ∧ envC3.uploadResult = none ∧
      envC3.existing = some docC3 ∧ (['x'] : List Char) ≠ []) ∧
    ((upload_or_replace_file envC3 (['x']) false).outcome = some docC3 ∧
      (upload_or_replace_file envC3 (['x']) false).fallbackUpdateCalled = true) :=
  ⟨⟨rfl, rfl, rfl, by decide⟩,
    upload_or_replace_file_fallback envC3 (['x']) docC3 rfl rfl rfl (by decide)⟩

/-- Claim C8: when the upload succeeds but the returned document lacks the
requested non-empty description, the separate description-update call is
issued, and even when that secondary call fails (`updateOk = false`) the
uploaded document is still returned as the success outcome. -/
theorem upload_file_internal_desc_patch (env : FileEnv) (desc : List Char) (doc : RemoteDoc)
    (h1 : env.uploadResult = some doc) (h2 : doc.description = [])
    (h3 : desc ≠ []) (h4 : env.updateOk = false) :
    upload_file_internal env desc = (some doc, true) := by
  cases desc with
  | nil => exact absurd rfl h3
  | cons a t => simp [upload_file_internal, h1, h2]

/-- Claim C8 witness: in `envC8` the upload returns `docC8` without a
description and the secondary update fails, yet the call is issued and the
document is returned. -/
theorem upload_file_internal_desc_patch_witness :
    (envC8.uploadResult = some docC8 ∧ docC8.description = [] ∧
      (['x'] : List Char) ≠ [] ∧ envC8.updateOk = false) ∧
    upload_file_internal envC8 (['x']) = (some docC8, true) :=
  ⟨⟨rfl, rfl, by decide, rfl⟩,
    upload_file_internal_desc_patch envC8 (['x']) docC8 rfl rfl (by decide) rfl⟩

/-! ## Claims C5 and C10: the Batch Orchestrator -/

/-- Each batch iteration files its input in exactly one of `successful`,
`failed`, `skipped`, growing their combined length by one. -/
theorem processOne_counts (replace : Bool) (acc : BatchResults) (env : FileEnv) :
    (processOne replace acc env).successful.length +
      (processOne replace acc env).failed.length +
      (processOne replace acc env).skipped.length =
    acc.successful.length + acc.failed.length + acc.skipped.length + 1 := by
  unfold processOne
  cases henv : env.localExists with
  | false => simp; omega
  | true =>
    cases hout : (upload_or_replace_file env env.desc replace).outcome with
    | none => simp; omega
    | some doc => simp; omega

/-- Each batch iteration keeps `replaced` a sublist of `successful`. -/
theorem processOne_sublist (replace : Bool) (acc : BatchResults) (env : FileEnv)
    (h : List.Sublist acc.replaced acc.successful) :
    List.Sublist (processOne replace acc env).replaced
      (processOne replace acc env).successful := by
  unfold processOne
  cases henv : env.localExists with
  | false => simpa using h
  | true =>
    cases hout : (upload_or_replace_file env env.desc replace).outcome with
    | none => simpa using h
    | some doc =>
      simp only [Bool.not_true, Bool.false_eq_true, if_false]
      by_cases hr : (env.existing.isSome && replace) = true
      · rw [if_pos hr]
        exact List.Sublist.append h (List.Sublist.refl _)
      · rw [if_neg hr]
        exact h.trans (List.sublist_append_left _ _)

/-- Folding the batch loop adds the number of processed files to the combined
size of the three disjoint outcome lists. -/
theorem foldl_counts (replace : Bool) :
    ∀ (files : List FileEnv) (acc : BatchResults),
      (files.foldl (processOne replace) acc).successful.length +
        (files.foldl (processOne replace) acc).failed.length +
        (files.foldl (processOne replace) acc).skipped.length =
      acc.successful.length + acc.failed.length + acc.skipped.length + files.length := by
  intro files
  induction files with
  | nil => intro acc; simp
  | cons e t ih =>
    intro acc
    rw [List.foldl_cons, ih (processOne replace acc e), processOne_counts]
    simp
    omega

/-- Folding the batch loop preserves `replaced` being a sublist of
`successful`. -/
theorem foldl_sublist (replace : Bool) :
    ∀ (files : List FileEnv) (acc : BatchResults),
      List.Sublist acc.replaced acc.successful →
      List.Sublist (files.foldl (processOne replace) acc).replaced
        (files.foldl (processOne replace) acc).successful := by
  intro files
  induction files with
  | nil => intro acc h; exact h
  | cons e t ih =>
    intro acc h
    rw [List.foldl_cons]
    exact ih (processOne replace acc e) (processOne_sublist replace acc e h)

/-- Claim C5: after a batch run, created + replaced + failed + skipped equals
the number of files attempted, where created is the number of successful
uploads that were not replacements (the `successful` entries outside
`replaced`), so `created = |successful| - |replaced|`. -/
theorem upload_files_batch_counts (replace : Bool) (files : List FileEnv) :
    ((upload_files_batch replace files).successful.length -
        (upload_files_batch replace files).replaced.length) +
      (upload_files_batch replace files).replaced.length +
      (upload_files_batch replace files).failed.length +
      (upload_files_batch replace files).skipped.length = files.length := by
  have h1 := foldl_counts replace files ⟨[], [], [], []⟩
  have h2 := (foldl_sublist replace files ⟨[], [], [], []⟩ (List.Sublist.refl _)).length_le
  unfold upload_files_batch
  simp only [List.length_nil] at h1
  omega

/-- Claim C10: every entry of the batch result's `replaced` list also stands
in the `successful` list (it is even a sublist: a file is recorded as replaced
only when its upload succeeded), so the replaced count never exceeds the
successful count. -/
theorem upload_files_batch_replaced_sublist (replace : Bool) (files : List FileEnv) :
    List.Sublist (upload_files_batch replace files).replaced
      (upload_files_batch replace files).successful ∧
    (upload_files_batch replace files).replaced.length ≤
      (upload_files_batch replace files).successful.length := by
  have h := foldl_sublist replace files ⟨[], [], [], []⟩ (List.Sublist.refl _)
  exact ⟨h, h.length_le⟩

/-! ## Claim C9: the extension filter -/

/-- Claim C9 counterexample: the allow-list entry ".JPG" matches the file
"photo.JPG" under case-insensitive comparison (the claim's reading), but the
code lowercases only the file's extension and compares it literally against
the entries, so the file is rejected. -/
theorem check_file_extension_counterexample :
    check_file_extension (("photo.JPG").toList) [((".JPG").toList)] = false ∧
    claimC9_accept (("photo.JPG").toList) [((".JPG").toList)] = true := by
  decide

/-- Claim C9 (amended): the directory-walk extension filter accepts a file iff
the allow-list is empty (accept all), or the file's lowercased extension
(leading dot included) is literally one of the entries, or that extension with
one more leading dot prepended is an entry; the entries themselves are not
lowercased, so the match against them is case-sensitive. -/
theorem check_file_extension_spec (filename : List Char) (extensions : List (List Char)) :
    check_file_extension filename extensions = true ↔
      (extensions = [] ∨ lowerList ((splitext filename).2) ∈ extensions ∨
        ('.' :: lowerList ((splitext filename).2)) ∈ extensions) := by
  unfold check_file_extension
  cases extensions with
  | nil => simp
  | cons e t => simp [List.elem_iff]
